import Mathlib

/-!
Verification of the chunking-and-streaming subtitle pipeline
(`app/srt_utils.py` and `app/main.py`).

Shallow embedding conventions:
* Python floats are modelled as exact rationals (`ℚ`); Python `round`
  (banker's rounding, ties to even) is `pyRound`.
* Python `str.strip()` is `pystrip`, `str.split()` word counting is
  `word_count`, `f"{n:02}"` zero-padding is `zpad`.
* Dict/duck-typed raw segments (`Mapping` or attribute objects, both with
  `get`-style defaulting and falsy-`or` coalescing) are `RawSegment` with
  `Option ℚ` fields; `coalesce` models `d.get(key, dflt) or dflt`.
* On-disk audio and the remote service are oracles: `exportSize s e` is the
  exported byte size of the slice `[s, e)` in milliseconds, and a
  `ℕ → ℕ → TranscriptionResult` function gives the remote result per slice.
* Python loops (`while current_chunk_ms >= ...`, the cursor loop) are
  structurally recursive on an explicit fuel argument; the fuel values used
  by the top-level entry points are provably sufficient.
* `HTTPException` status codes are the `PipelineError` constructors
  (`http_status` gives the numeric code).
-/

set_option allowUnsafeReducibility true
attribute [local semireducible] Rat.mul Rat.add Rat.sub Rat.div Rat.neg Rat.inv Rat.ofScientific
set_option maxRecDepth 8000

/-- Whitespace test used to model Python `str.strip()` / `str.split()`. -/
def pyWS (c : Char) : Bool := c.isWhitespace

/-- Python `s.strip()`: drop whitespace from both ends. -/
def pystrip (s : String) : String :=
  String.mk (List.rdropWhile pyWS (List.dropWhile pyWS s.data))

/-- Counts maximal nonwhitespace runs; the flag records whether the previous
character was part of a word. -/
def word_count_aux : List Char → Bool → ℕ
  | [], _ => 0
  | c :: rest, inWord =>
    if pyWS c then word_count_aux rest false
    else (if inWord then 0 else 1) + word_count_aux rest true

/-- Python `len(s.split())`: number of maximal nonwhitespace runs. -/
def word_count (s : String) : ℕ := word_count_aux s.data false

/-- Python `f"{n:0w}"`: decimal rendering left-padded with zeros to width `w`. -/
def zpad (w : ℕ) (n : ℕ) : String :=
  let s := toString n
  if s.length < w then String.mk (List.replicate (w - s.length) '0') ++ s else s

/-- Floor of a rational, written so that it evaluates by kernel reduction
(`Int.fdiv` rounds toward negative infinity; the denominator is positive). -/
def ratFloor (q : ℚ) : ℤ := Int.fdiv q.num q.den

/-- Python `round`: nearest integer, ties to even. -/
def pyRound (q : ℚ) : ℤ :=
  let f := ratFloor q
  let r := q - (f : ℚ)
  if r < 1/2 then f
  else if 1/2 < r then f + 1
  else if f % 2 = 0 then f else f + 1

/-- `srt_utils._format_timestamp`: clamp at zero, round to milliseconds,
`divmod` chain, `HH:MM:SS,mmm` rendering. -/
def format_timestamp (seconds : ℚ) : String :=
  let s := max 0 seconds
  let total_milliseconds := (pyRound (s * 1000)).toNat
  let hours := total_milliseconds / 3600000
  let r1 := total_milliseconds % 3600000
  let minutes := r1 / 60000
  let r2 := r1 % 60000
  let secs := r2 / 1000
  let milliseconds := r2 % 1000
  zpad 2 hours ++ ":" ++ zpad 2 minutes ++ ":" ++ zpad 2 secs ++ "," ++ zpad 3 milliseconds

/-- A raw segment-like record coming back from the remote service:
`rstart`/`rend` are `none` when the key is absent (or the value is `None`),
mirroring `segment.get("start", ...)` / `getattr(segment, "start", ...)`. -/
structure RawSegment where
  rstart : Option ℚ
  rend : Option ℚ
  rtext : String
deriving DecidableEq, Repr

/-- A normalized segment dict `{"start": ..., "end": ..., "text": ...}`.
(`stop` is the `"end"` key; `end` is a Lean keyword.) -/
structure Seg where
  start : ℚ
  stop : ℚ
  text : String
deriving DecidableEq, Repr

/-- `float(d.get(key, dflt) or dflt)`: absent keys and falsy (zero) values
both fall back to the default. -/
def coalesce (v : Option ℚ) (dflt : ℚ) : ℚ :=
  match v with
  | none => dflt
  | some x => if x = 0 then dflt else x

/-- A fully populated dict, as seen by `_emit_segments` when fed the output
of `_translate_and_normalize` or `build_single_segment`. -/
def segToRaw (s : Seg) : RawSegment := ⟨some s.start, some s.stop, s.text⟩

/-- `srt_utils._MIN_SEGMENT_DURATION` (0.5 seconds). -/
def MIN_SEGMENT_DURATION : ℚ := 1/2

/-- `srt_utils.build_single_segment`. -/
def build_single_segment (text : String) : List Seg :=
  let cleaned := pystrip text
  if cleaned = "" then []
  else [⟨0, max MIN_SEGMENT_DURATION ((word_count cleaned : ℚ) * (2/5)), cleaned⟩]

/-- The raw start/end extraction and degenerate-timing repair performed by
`iter_srt_blocks` (lines 25-28 of `srt_utils.py`). -/
def render_times (seg : RawSegment) : ℚ × ℚ :=
  let raw_start := coalesce seg.rstart 0
  let raw_end := coalesce seg.rend raw_start
  (raw_start, if raw_end ≤ raw_start then raw_start + MIN_SEGMENT_DURATION else raw_end)

/-- One three-line SRT record: index, time range, text (newline-joined). -/
def srt_entry (index : ℕ) (seg : RawSegment) : String :=
  toString index ++ "\n" ++
    format_timestamp (render_times seg).1 ++ " --> " ++ format_timestamp (render_times seg).2 ++
    "\n" ++ pystrip seg.rtext

/-- The generator body of `srt_utils.iter_srt_blocks`: `index` is the
1-based `enumerate` counter (it advances on skipped segments too), `sep` is
the pending separator (`""` before the first yield, `"\n\n"` after), and
`has_output` drives the final `"\n"` chunk. -/
def iter_srt_blocks_aux (index : ℕ) (sep : String) (has_output : Bool) :
    List RawSegment → List String
  | [] => if has_output then ["\n"] else []
  | seg :: rest =>
    if pystrip seg.rtext = "" then iter_srt_blocks_aux (index + 1) sep has_output rest
    else (sep ++ srt_entry index seg) :: iter_srt_blocks_aux (index + 1) "\n\n" true rest

/-- `srt_utils.iter_srt_blocks`. -/
def iter_srt_blocks (segments : List RawSegment) : List String :=
  iter_srt_blocks_aux 1 "" false segments

/-- `srt_utils.segments_to_srt` (`rendered if rendered else ""`). -/
def segments_to_srt (segments : List RawSegment) : String :=
  let rendered := String.join (iter_srt_blocks segments)
  if rendered = "" then "" else rendered

deriving instance DecidableEq for Except

/-- `main.MAX_AUDIO_BYTES` (25 MiB service-side ceiling). -/
def MAX_AUDIO_BYTES : ℕ := 25 * 1024 * 1024

/-- `main.MIN_CHUNK_DURATION_MS` (1 second lower bound when splitting). -/
def MIN_CHUNK_DURATION_MS : ℕ := 1000

/-- The `HTTPException`s raised inside the transcription pipeline. -/
inductive PipelineError where
  | decodeError    -- "Could not decode audio" (400)
  | zeroDuration   -- "Uploaded audio has zero duration" (400)
  | unsplittable   -- "Unable to split audio below OpenAI size limit" (413)
  | badLimit       -- "Duration limit must be greater than zero" (400)
deriving DecidableEq, Repr

/-- HTTP status code of each pipeline error. -/
def http_status : PipelineError → ℕ
  | .decodeError => 400
  | .zeroDuration => 400
  | .unsplittable => 413
  | .badLimit => 400

/-- The remote service's answer for one audio file: raw segment records plus
the flat transcript text (`getattr(transcription, "segments"/"text", ...)`). -/
structure TranscriptionResult where
  segments : List RawSegment
  text : String
deriving DecidableEq, Repr

/-- The per-segment body of `main._emit_segments` (lines 493-500): trim the
text, skip if empty, add the offset to both coalesced timestamps.  Note that
the default for the `"end"` key is `start`, which already includes the
offset. -/
def emit_one (offset_seconds : ℚ) (seg : RawSegment) : Option Seg :=
  let text := pystrip seg.rtext
  if text = "" then none
  else
    let start := coalesce seg.rstart 0 + offset_seconds
    let stop := coalesce seg.rend start + offset_seconds
    some ⟨start, stop, text⟩

/-- `main._emit_segments` over a whole raw-segment list. -/
def emit_segments (offset_seconds : ℚ) (segs : List RawSegment) : List Seg :=
  segs.filterMap (emit_one offset_seconds)

/-- `main._translate_and_normalize` (lines 612-628), with the remote call's
result passed in as `tr`: normalize the raw segments (adding
`offset_seconds`; the loop at lines 613-619 is textually the same
computation as the `_emit_segments` body, hence the shared `emit_segments`),
and if none survive, fall back to `build_single_segment(text)` whose
entries are then offset in place (the updated `"start"` serving as the
default for `"end"`). -/
def translate_and_normalize (tr : TranscriptionResult) (offset_seconds : ℚ) :
    List Seg × String :=
  let segment_dicts := emit_segments offset_seconds tr.segments
  if segment_dicts.isEmpty then
    ((build_single_segment tr.text).map (fun s =>
      let nstart := coalesce (some s.start) 0 + offset_seconds
      let nstop := coalesce (some s.stop) nstart + offset_seconds
      Seg.mk nstart nstop s.text), tr.text)
  else (segment_dicts, tr.text)

/-- Result of the inner halving retry loop (`main.py` lines 535-561):
either a slice `[start_ms, endMs)` was exported within the ceiling
(`accepted`, with the exported byte size), or the slice was empty and the
loop broke with no chunk (`noChunk`), or the candidate duration reached the
floor while still oversized (`oversize`, the HTTP 413 condition). -/
inductive RetryOutcome where
  | accepted (endMs size : ℕ)
  | noChunk
  | oversize
deriving DecidableEq, Repr

/-- The halving retry loop.  `exportSize s e` is the byte size of the
128 kbps export of the slice `[s, e)`; `fuel` bounds the number of halvings
(structural recursion; any `fuel ≥ currentMs` is sufficient since the
candidate strictly decreases). -/
def chunk_retry (exportSize : ℕ → ℕ → ℕ) (durationMs startMs : ℕ) :
    ℕ → ℕ → RetryOutcome
  | 0, _ => .noChunk
  | fuel + 1, currentMs =>
    if currentMs < MIN_CHUNK_DURATION_MS then .noChunk
    else
      let endMs := min durationMs (startMs + currentMs)
      if endMs - startMs = 0 then .noChunk
      else
        let chunk_size := exportSize startMs endMs
        if chunk_size ≤ MAX_AUDIO_BYTES then .accepted endMs chunk_size
        else if currentMs ≤ MIN_CHUNK_DURATION_MS then .oversize
        else chunk_retry exportSize durationMs startMs fuel
          (max MIN_CHUNK_DURATION_MS (currentMs / 2))

/-- What one chunked run produces: the accepted chunk spans
`[cursorStart, cursorEnd)` in order, the emitted segments in order, and the
nonempty per-chunk transcript texts (`collected_text`) in order. -/
structure ChunkedRun where
  spans : List (ℕ × ℕ)
  segs : List Seg
  texts : List String
deriving DecidableEq, Repr

/-- The cursor loop of `main._transcribe_with_chunking` (lines 527-586).
`rem s e` is the remote transcription result for the exported slice
`[s, e)`.  Each accepted chunk is passed to `_translate_and_normalize` with
`offset_seconds = start_ms / 1000` and its output re-offset by
`_emit_segments` with the same offset (both, as in the source).  `fuel` is
structural-recursion fuel; any `fuel ≥ durationMs - startMs` is sufficient
since the cursor strictly advances. -/
def chunk_loop (exportSize : ℕ → ℕ → ℕ) (rem : ℕ → ℕ → TranscriptionResult)
    (durationMs maxChunkMs : ℕ) : ℕ → ℕ → Except PipelineError ChunkedRun
  | 0, _ => .ok ⟨[], [], []⟩
  | fuel + 1, startMs =>
    if startMs < durationMs then
      let current0 := max MIN_CHUNK_DURATION_MS (min maxChunkMs (durationMs - startMs))
      match chunk_retry exportSize durationMs startMs (current0 + 1) current0 with
      | .oversize => .error .unsplittable
      | .noChunk => .ok ⟨[], [], []⟩
      | .accepted endMs _ =>
        let res := translate_and_normalize (rem startMs endMs) ((startMs : ℚ) / 1000)
        let here := emit_segments ((startMs : ℚ) / 1000) (res.1.map segToRaw)
        let texts := if res.2 = "" then [] else [res.2]
        match chunk_loop exportSize rem durationMs maxChunkMs fuel (min durationMs endMs) with
        | .error e => .error e
        | .ok rest => .ok ⟨(startMs, endMs) :: rest.spans, here ++ rest.segs, texts ++ rest.texts⟩
    else .ok ⟨[], [], []⟩

/-- The initial candidate chunk duration (lines 522-523):
`bytes_per_ms = max(file_size / duration_ms, 1e-6)` and
`max_chunk_ms = max(int(MAX_AUDIO_BYTES / bytes_per_ms), MIN_CHUNK_DURATION_MS)`
(`int()` truncates; the argument is nonnegative, so it is the floor). -/
def max_chunk_ms (file_size durationMs : ℕ) : ℕ :=
  let bytes_per_ms : ℚ := max ((file_size : ℚ) / (durationMs : ℚ)) (1/1000000)
  max (ratFloor ((MAX_AUDIO_BYTES : ℚ) / bytes_per_ms)).toNat MIN_CHUNK_DURATION_MS

/-- The final whole-file fallback text (lines 589-591):
`" ".join(text.strip() for text in collected_text if text and text.strip())`. -/
def fallback_join (collected_text : List String) : String :=
  String.intercalate " "
    ((collected_text.filter (fun t => t != "" && pystrip t != "")).map pystrip)

/-- `main._transcribe_with_chunking` (lines 483-594), with the generator
drained into a list.  Small files take the single-shot path (one remote
call on the whole file, offset 0); larger files run the cursor loop and, if
no segment was ever emitted, synthesize one whole-file fallback segment
from the joined per-chunk texts. -/
def transcribe_with_chunking (file_size durationMs : ℕ)
    (exportSize : ℕ → ℕ → ℕ) (rem : ℕ → ℕ → TranscriptionResult) :
    Except PipelineError (List Seg) :=
  if file_size ≤ MAX_AUDIO_BYTES then
    let res := translate_and_normalize (rem 0 durationMs) 0
    let segs := emit_segments 0 (res.1.map segToRaw)
    .ok (if segs.isEmpty then emit_segments 0 ((build_single_segment res.2).map segToRaw)
         else segs)
  else if durationMs = 0 then .error .zeroDuration
  else
    match chunk_loop exportSize rem durationMs (max_chunk_ms file_size durationMs) durationMs 0 with
    | .error e => .error e
    | .ok run =>
      if run.segs.isEmpty then
        .ok (emit_segments 0 ((build_single_segment (fallback_join run.texts)).map segToRaw))
      else .ok run.segs

/-- Outcome of `main._trim_audio_to_duration`: the source path itself
(no new file), or a freshly exported temp file holding the first
`limit_ms` milliseconds. -/
inductive TrimResult where
  | samePath
  | newFile (ms : ℕ)
deriving DecidableEq, Repr

/-- `main._trim_audio_to_duration` (lines 679-690), with the decoded
duration of the source passed in.  `limit_ms` is an `int` in the source, so
it is modelled as `ℤ`. -/
def trim_audio_to_duration (durationMs : ℕ) (limit_ms : ℤ) :
    Except PipelineError TrimResult :=
  if limit_ms ≤ 0 then .error .badLimit
  else if (durationMs : ℤ) ≤ limit_ms then .ok .samePath
  else .ok (.newFile limit_ms.toNat)

/-- Request-level errors raised by `main.generate_subtitles`. -/
inductive ReqError where
  | normalizeFailed              -- FFmpeg normalization failure (500)
  | trimFailed                   -- trim failure (400)
  | pipeline (e : PipelineError) -- propagated from the transcription generator
  | noSegments                   -- "No transcription segments returned" (502)
deriving DecidableEq, Repr

/-- Outcome of one request together with the temporary files still on disk
when the handler returns or its exception propagates. -/
structure RequestOutcome where
  result : Except ReqError Unit
  leftover : List String
deriving DecidableEq, Repr

/-- The temp-file lifecycle of `main.generate_subtitles` (lines 402-475).
The uploaded bytes are always written to `"upload.tmp"` first; the stage
oracles say whether normalization succeeds, whether trimming was requested,
succeeds and produces a new file, and what draining the transcription
generator yields.  `_cleanup_paths` runs only where the source calls it:
in the non-streaming `finally`, in the streaming `StopIteration` handler,
and as the streaming background task (which also covers client
cancellation).  Exceptions raised before those points propagate with the
accumulated `cleanup_paths` still on disk. -/
def generate_subtitles_model (normalize_ok : Bool)
    (trim_requested trim_ok trim_new_file : Bool) (stream : Bool)
    (transcription : Except PipelineError (List Seg)) : RequestOutcome :=
  let files0 := ["upload.tmp"]
  if ¬ normalize_ok then ⟨.error .normalizeFailed, files0⟩
  else
    let files1 := files0 ++ ["normalized.mp3"]
    if trim_requested ∧ ¬ trim_ok then ⟨.error .trimFailed, files1⟩
    else
      let files2 := files1 ++
        (if trim_requested ∧ trim_new_file then ["trimmed.mp3"] else [])
      if stream then
        match transcription with
        | .error e => ⟨.error (.pipeline e), files2⟩
        | .ok segs =>
          if segs.isEmpty then ⟨.error .noSegments, []⟩
          else ⟨.ok (), []⟩
      else
        match transcription with
        | .error e => ⟨.error (.pipeline e), []⟩
        | .ok segs =>
          if segs.isEmpty then ⟨.error .noSegments, []⟩
          else ⟨.ok (), []⟩


/-- Consecutive, start-anchored spans reaching exactly `dur`:
`spans_cover s l dur` says the spans in `l` tile `[s, dur)` in order. -/
def spans_cover : ℕ → List (ℕ × ℕ) → ℕ → Prop
  | s, [], dur => s = dur
  | s, (a, b) :: rest, dur => a = s ∧ s < b ∧ spans_cover b rest dur

/-- Positional description of the blocks yielded after the first one: the
block for the segment at (1-based) input position `i` is the `"\n\n"`
separator followed by the SRT entry with index `i`. -/
def sep_blocks : ℕ → List RawSegment → List String
  | _, [] => []
  | i, seg :: rest => ("\n\n" ++ srt_entry i seg) :: sep_blocks (i + 1) rest

/-! ### Helper lemmas -/

theorem chunk_retry_accepted (exportSize : ℕ → ℕ → ℕ) (durationMs startMs : ℕ) :
    ∀ fuel currentMs endMs size,
      chunk_retry exportSize durationMs startMs fuel currentMs = .accepted endMs size →
      startMs < endMs ∧ endMs ≤ durationMs ∧ size = exportSize startMs endMs ∧
        size ≤ MAX_AUDIO_BYTES := by
  intro fuel
  induction fuel with
  | zero =>
    intro c e sz h
    simp only [chunk_retry] at h
    exact absurd h (by simp)
  | succ fuel ih =>
    intro c e sz h
    simp only [chunk_retry] at h
    split_ifs at h with h1 h2 h3 h4
    · injection h with he hs
      subst he
      subst hs
      exact ⟨by omega, by omega, rfl, h3⟩
    · exact ih _ _ _ h

theorem chunk_retry_ne_noChunk (exportSize : ℕ → ℕ → ℕ) (durationMs startMs : ℕ)
    (hs : startMs < durationMs) :
    ∀ fuel currentMs, MIN_CHUNK_DURATION_MS ≤ currentMs → currentMs ≤ fuel →
      chunk_retry exportSize durationMs startMs fuel currentMs ≠ .noChunk := by
  have hM : MIN_CHUNK_DURATION_MS = 1000 := rfl
  intro fuel
  induction fuel with
  | zero =>
    intro c hc hcf
    exact absurd (Nat.le_trans hc hcf) (by omega)
  | succ fuel ih =>
    intro c hc hcf
    simp only [chunk_retry]
    split_ifs with h1 h2 h3 h4
    · exfalso; omega
    · exfalso; omega
    · simp
    · simp
    · exact ih _ (le_max_left _ _) (by omega)

theorem dropWhile_cons_not {p : Char → Bool} :
    ∀ {l : List Char} {a : Char} {rest : List Char},
      List.dropWhile p l = a :: rest → ¬ p a := by
  intro l
  induction l with
  | nil => intro a rest h; cases h
  | cons x xs ih =>
    intro a rest h
    by_cases hx : p x = true
    · rw [List.dropWhile_cons, if_pos hx] at h
      exact ih h
    · rw [List.dropWhile_cons, if_neg hx] at h
      injection h with h1 _
      exact h1 ▸ hx

theorem pystrip_idempotent (s : String) : pystrip (pystrip s) = pystrip s := by
  have key : ∀ l : List Char,
      List.rdropWhile pyWS (List.dropWhile pyWS
        (List.rdropWhile pyWS (List.dropWhile pyWS l))) =
      List.rdropWhile pyWS (List.dropWhile pyWS l) := by
    intro l
    have h1 : List.dropWhile pyWS (List.rdropWhile pyWS (List.dropWhile pyWS l))
        = List.rdropWhile pyWS (List.dropWhile pyWS l) := by
      rcases hpre : List.rdropWhile pyWS (List.dropWhile pyWS l) with _ | ⟨a, t⟩
      · rfl
      · have hp : List.rdropWhile pyWS (List.dropWhile pyWS l) <+: List.dropWhile pyWS l :=
          List.rdropWhile_prefix pyWS (List.dropWhile pyWS l)
        rw [hpre] at hp
        obtain ⟨u, hu⟩ := hp
        have hdw : List.dropWhile pyWS l = a :: (t ++ u) := by
          rw [← hu, List.cons_append]
        have ha : ¬ pyWS a := dropWhile_cons_not hdw
        rw [List.dropWhile_cons, if_neg ha]
    rw [h1, List.rdropWhile_idempotent]
  rw [pystrip, pystrip]
  exact congrArg String.mk (key s.data)

theorem empty_append_str (s : String) : "" ++ s = s := by
  cases s
  rfl

theorem translate_snd (tr : TranscriptionResult) (o : ℚ) :
    (translate_and_normalize tr o).2 = tr.text := by
  rw [translate_and_normalize]
  split <;> rfl

theorem emit_one_some {o : ℚ} {raw : RawSegment} {d : Seg}
    (h : emit_one o raw = some d) : d.text = pystrip raw.rtext ∧ pystrip raw.rtext ≠ "" := by
  rw [emit_one] at h
  split at h
  case isTrue ht => exact absurd h (by simp)
  case isFalse ht =>
    injection h with h
    exact ⟨by rw [← h], ht⟩

theorem emit_one_segToRaw_ne_none {o : ℚ} {d : Seg} (h : pystrip d.text ≠ "") :
    emit_one o (segToRaw d) ≠ none := by
  rw [emit_one]
  simp only [segToRaw]
  simp only [if_neg h]
  exact fun hc => Option.noConfusion hc

theorem emit_translate_blank (tr : TranscriptionResult) (o : ℚ)
    (h : emit_segments o ((translate_and_normalize tr o).1.map segToRaw) = []) :
    pystrip tr.text = "" := by
  by_contra hne
  rw [translate_and_normalize] at h
  split at h
  case isTrue hd =>
    have hb : build_single_segment tr.text
        = [⟨0, max MIN_SEGMENT_DURATION ((word_count (pystrip tr.text) : ℚ) * (2/5)),
            pystrip tr.text⟩] := by
      rw [build_single_segment]
      simp only [if_neg hne]
    rw [hb] at h
    simp only [List.map_cons, List.map_nil, emit_segments, List.filterMap_eq_nil_iff] at h
    have hnone := h _ (List.mem_cons_self _ _)
    refine emit_one_segToRaw_ne_none ?_ hnone
    show pystrip (pystrip tr.text) ≠ ""
    rw [pystrip_idempotent]
    exact hne
  case isFalse hd =>
    rcases hd2 : emit_segments o tr.segments with _ | ⟨d, ds⟩
    · rw [hd2] at hd
      simp at hd
    · have hmem : d ∈ emit_segments o tr.segments := by
        rw [hd2]; exact List.mem_cons_self d ds
      obtain ⟨raw, -, hraw⟩ := List.mem_filterMap.mp hmem
      obtain ⟨hdt, hraw_ne⟩ := emit_one_some hraw
      have hne2 : pystrip d.text ≠ "" := by
        rw [hdt, pystrip_idempotent]
        exact hraw_ne
      rw [emit_segments, List.filterMap_eq_nil_iff] at h
      have := h (segToRaw d) (List.mem_map_of_mem segToRaw hmem)
      exact emit_one_segToRaw_ne_none hne2 this

theorem spans_cover_le : ∀ {s : ℕ} {l : List (ℕ × ℕ)} {dur : ℕ},
    spans_cover s l dur → s ≤ dur := by
  intro s l
  induction l generalizing s with
  | nil => intro dur h; exact Nat.le_of_eq h
  | cons p rest ih =>
    intro dur h
    obtain ⟨p1, p2⟩ := p
    obtain ⟨-, hlt, hrest⟩ := h
    exact Nat.le_trans (Nat.le_of_lt hlt) (ih hrest)

theorem spans_cover_starts : ∀ {s : ℕ} {l : List (ℕ × ℕ)} {dur : ℕ},
    spans_cover s l dur → ∀ p ∈ l, s ≤ p.1 := by
  intro s l
  induction l generalizing s with
  | nil => intro dur _ p hp; cases hp
  | cons q rest ih =>
    intro dur h p hp
    obtain ⟨q1, q2⟩ := q
    obtain ⟨rfl, hlt, hrest⟩ := h
    rw [List.mem_cons] at hp
    rcases hp with rfl | hp
    · exact Nat.le_refl _
    · exact Nat.le_trans (Nat.le_of_lt hlt) (ih hrest p hp)

theorem spans_cover_pairwise : ∀ {s : ℕ} {l : List (ℕ × ℕ)} {dur : ℕ},
    spans_cover s l dur → l.Pairwise (fun p q => p.2 ≤ q.1) := by
  intro s l
  induction l generalizing s with
  | nil => intro dur _; exact List.Pairwise.nil
  | cons q rest ih =>
    intro dur h
    obtain ⟨q1, q2⟩ := q
    obtain ⟨rfl, hlt, hrest⟩ := h
    exact List.Pairwise.cons (fun p hp => spans_cover_starts hrest p hp) (ih hrest)

theorem spans_cover_mem_iff : ∀ {s : ℕ} {l : List (ℕ × ℕ)} {dur : ℕ},
    spans_cover s l dur →
      ∀ t, (s ≤ t ∧ t < dur) ↔ ∃ p ∈ l, p.1 ≤ t ∧ t < p.2 := by
  intro s l
  induction l generalizing s with
  | nil =>
    intro dur h t
    cases h
    simp only [List.not_mem_nil, false_and, exists_false, iff_false, not_and]
    exact fun h1 h2 => absurd h2 (Nat.not_lt.mpr h1)
  | cons q rest ih =>
    intro dur h t
    obtain ⟨q1, q2⟩ := q
    obtain ⟨rfl, hlt, hrest⟩ := h
    have hq2 : q2 ≤ dur := spans_cover_le hrest
    constructor
    · rintro ⟨hst, htd⟩
      by_cases hcase : t < q2
      · exact ⟨(q1, q2), List.mem_cons_self _ _, hst, hcase⟩
      · obtain ⟨p, hp, hp1, hp2⟩ :=
          (ih hrest t).mp ⟨Nat.le_of_not_lt hcase, htd⟩
        exact ⟨p, List.mem_cons_of_mem _ hp, hp1, hp2⟩
    · rintro ⟨p, hp, hp1, hp2⟩
      rw [List.mem_cons] at hp
      rcases hp with rfl | hp
      · exact ⟨hp1, Nat.lt_of_lt_of_le hp2 hq2⟩
      · have := (ih hrest t).mpr ⟨p, hp, hp1, hp2⟩
        exact ⟨Nat.le_trans (Nat.le_of_lt hlt) this.1, this.2⟩

theorem chunk_loop_cover (exportSize : ℕ → ℕ → ℕ) (rem : ℕ → ℕ → TranscriptionResult)
    (durationMs maxChunkMs : ℕ) :
    ∀ fuel startMs run, startMs ≤ durationMs → durationMs ≤ startMs + fuel →
      chunk_loop exportSize rem durationMs maxChunkMs fuel startMs = .ok run →
      spans_cover startMs run.spans durationMs := by
  intro fuel
  induction fuel with
  | zero =>
    intro s run hsd hds h
    simp only [chunk_loop] at h
    injection h with h
    rw [← h]
    show s = durationMs
    omega
  | succ fuel ih =>
    intro s run hsd hds h
    simp only [chunk_loop] at h
    split at h
    case isTrue hlt =>
      split at h
      case h_1 heq =>
        exact absurd h (by simp)
      case h_2 heq =>
        exact absurd heq (chunk_retry_ne_noChunk exportSize durationMs s hlt _ _
          (le_max_left _ _) (Nat.le_succ _))
      case h_3 endMs sz heq =>
        obtain ⟨hse, hed, -, -⟩ := chunk_retry_accepted exportSize durationMs s _ _ _ _ heq
        split at h
        case h_1 => exact absurd h (by simp)
        case h_2 rest heq2 =>
          injection h with h
          rw [← h]
          refine ⟨rfl, hse, ?_⟩
          rw [Nat.min_eq_right hed] at heq2
          exact ih endMs rest hed (by omega) heq2
    case isFalse hge =>
      injection h with h
      rw [← h]
      show s = durationMs
      omega

theorem chunk_loop_sizes (exportSize : ℕ → ℕ → ℕ) (rem : ℕ → ℕ → TranscriptionResult)
    (durationMs maxChunkMs : ℕ) :
    ∀ fuel startMs run,
      chunk_loop exportSize rem durationMs maxChunkMs fuel startMs = .ok run →
      ∀ p ∈ run.spans, exportSize p.1 p.2 ≤ MAX_AUDIO_BYTES := by
  intro fuel
  induction fuel with
  | zero =>
    intro s run h p hp
    simp only [chunk_loop] at h
    injection h with h
    rw [← h] at hp
    cases hp
  | succ fuel ih =>
    intro s run h p hp
    simp only [chunk_loop] at h
    split at h
    case isTrue hlt =>
      split at h
      case h_1 heq => exact absurd h (by simp)
      case h_2 heq =>
        injection h with h
        rw [← h] at hp
        cases hp
      case h_3 endMs sz heq =>
        obtain ⟨-, -, hsz, hle⟩ := chunk_retry_accepted exportSize durationMs s _ _ _ _ heq
        split at h
        case h_1 => exact absurd h (by simp)
        case h_2 rest heq2 =>
          injection h with h
          rw [← h] at hp
          rw [List.mem_cons] at hp
          rcases hp with rfl | hp
          · show exportSize s endMs ≤ MAX_AUDIO_BYTES
            rw [← hsz]
            exact hle
          · exact ih _ rest heq2 p hp
    case isFalse hge =>
      injection h with h
      rw [← h] at hp
      cases hp

theorem chunk_loop_blank (exportSize : ℕ → ℕ → ℕ) (rem : ℕ → ℕ → TranscriptionResult)
    (durationMs maxChunkMs : ℕ) :
    ∀ fuel startMs run,
      chunk_loop exportSize rem durationMs maxChunkMs fuel startMs = .ok run →
      run.segs = [] → ∀ t ∈ run.texts, pystrip t = "" := by
  intro fuel
  induction fuel with
  | zero =>
    intro s run h hsegs t ht
    simp only [chunk_loop] at h
    injection h with h
    rw [← h] at ht
    cases ht
  | succ fuel ih =>
    intro s run h hsegs t ht
    simp only [chunk_loop] at h
    split at h
    case isTrue hlt =>
      split at h
      case h_1 heq => exact absurd h (by simp)
      case h_2 heq =>
        injection h with h
        rw [← h] at ht
        cases ht
      case h_3 endMs sz heq =>
        split at h
        case h_1 => exact absurd h (by simp)
        case h_2 rest heq2 =>
          injection h with h
          rw [← h] at hsegs ht
          simp only [List.append_eq_nil] at hsegs
          obtain ⟨hhere, hrest⟩ := hsegs
          rw [List.mem_append] at ht
          rcases ht with ht | ht
          · split at ht
            case isTrue => cases ht
            case isFalse hne =>
              rw [List.mem_singleton] at ht
              subst ht
              rw [translate_snd]
              exact emit_translate_blank _ _ hhere
          · exact ih _ rest heq2 hrest t ht
    case isFalse hge =>
      injection h with h
      rw [← h] at ht
      cases ht

theorem str_data_append (a b : String) : (a ++ b).data = a.data ++ b.data := by
  cases a
  cases b
  rfl

theorem iter_aux_after_first : ∀ (segs : List RawSegment) (i : ℕ),
    ∃ bs, iter_srt_blocks_aux i "\n\n" true segs = bs ++ ["\n"] ∧
      ∀ b ∈ bs, "\n\n".data <+: b.data := by
  intro segs
  induction segs with
  | nil =>
    intro i
    exact ⟨[], rfl, by simp⟩
  | cons seg rest ih =>
    intro i
    rw [iter_srt_blocks_aux]
    split
    · exact ih (i + 1)
    · obtain ⟨bs, hbs, hpre⟩ := ih (i + 1)
      refine ⟨("\n\n" ++ srt_entry i seg) :: bs,
        by rw [hbs]; exact (List.cons_append _ _ _).symm, ?_⟩
      intro b hb
      rw [List.mem_cons] at hb
      rcases hb with rfl | hb
      · exact ⟨(srt_entry i seg).data, (str_data_append _ _).symm⟩
      · exact hpre b hb

theorem iter_aux_sep_blocks : ∀ (segs : List RawSegment) (i : ℕ),
    (∀ seg ∈ segs, pystrip seg.rtext ≠ "") →
    iter_srt_blocks_aux i "\n\n" true segs = sep_blocks i segs ++ ["\n"] := by
  intro segs
  induction segs with
  | nil => intro i _; rfl
  | cons seg rest ih =>
    intro i hall
    rw [iter_srt_blocks_aux]
    rw [if_neg (hall seg (List.mem_cons_self _ _))]
    rw [sep_blocks]
    rw [List.cons_append]
    rw [ih (i + 1) (fun s hs => hall s (List.mem_cons_of_mem _ hs))]

theorem iter_aux_first : ∀ (segs : List RawSegment) (i : ℕ),
    iter_srt_blocks_aux i "" false segs = [] ∨
    ∃ b0 bs, iter_srt_blocks_aux i "" false segs = b0 :: (bs ++ ["\n"]) ∧
      ∀ b ∈ bs, "\n\n".data <+: b.data := by
  intro segs
  induction segs with
  | nil => intro i; exact Or.inl rfl
  | cons seg rest ih =>
    intro i
    rw [iter_srt_blocks_aux]
    split
    · exact ih (i + 1)
    · obtain ⟨bs, hbs, hpre⟩ := iter_aux_after_first rest (i + 1)
      exact Or.inr ⟨"" ++ srt_entry i seg, bs, by rw [hbs], hpre⟩

/-! ### Claim theorems -/

/-- Claim C1 (code bug): the offset law fails in the chunked path because
`_translate_and_normalize` already adds `offset_seconds` to every segment it
returns (lines 617-618 and 624-626) and `_emit_segments` then adds the same
offset again (lines 497-498).  For the claim's own scenario — a chunk
starting at 30 s whose remote result is `segments=[]`, `text="hello world"`
— the pipeline emits `{start: 60.0, end: 60.8}` instead of the claimed
`{start: 30.0, end: 30.8}` (304/5 = 60.8, 154/5 = 30.8).  The first
conjunct shows the full chunked pipeline doing so on a 120 s file whose
second chunk starts at 30 s. -/
theorem offset_double_applied_bug :
    transcribe_with_chunking 104857600 120000 (fun _ _ => 20000000)
      (fun s _ => if s = 30000 then ⟨[], "hello world"⟩ else ⟨[], ""⟩)
      = .ok [⟨60, 304/5, "hello world"⟩] ∧
    emit_segments 30 ((translate_and_normalize ⟨[], "hello world"⟩ 30).1.map segToRaw)
      = [⟨60, 304/5, "hello world"⟩] ∧
    emit_segments 30 ((translate_and_normalize ⟨[], "hello world"⟩ 30).1.map segToRaw)
      ≠ [⟨30, 154/5, "hello world"⟩] :=
  ⟨by decide, by decide, by decide⟩

/-- Claim C2: every accepted chunk's exported size is at or below the
25 MiB ceiling; an export that still exceeds the ceiling when the candidate
duration sits at the 1000 ms floor makes the retry loop return the
oversize outcome, which the cursor loop surfaces as the distinct
unsplittable error (HTTP 413); and every chunk span of a successful run
has export size at or below the ceiling (the remote call is made only on
accepted spans). -/
theorem chunk_size_compliance (exportSize : ℕ → ℕ → ℕ)
    (rem : ℕ → ℕ → TranscriptionResult) (durationMs maxChunkMs : ℕ) :
    (∀ startMs fuel currentMs endMs size,
       chunk_retry exportSize durationMs startMs fuel currentMs = .accepted endMs size →
       size = exportSize startMs endMs ∧ size ≤ MAX_AUDIO_BYTES) ∧
    (∀ startMs fuel, startMs < durationMs →
       MAX_AUDIO_BYTES < exportSize startMs (min durationMs (startMs + MIN_CHUNK_DURATION_MS)) →
       chunk_retry exportSize durationMs startMs (fuel + 1) MIN_CHUNK_DURATION_MS
         = .oversize ∧
       http_status .unsplittable = 413) ∧
    (∀ fuel startMs run,
       chunk_loop exportSize rem durationMs maxChunkMs fuel startMs = .ok run →
       ∀ p ∈ run.spans, exportSize p.1 p.2 ≤ MAX_AUDIO_BYTES) := by
  have hM : MIN_CHUNK_DURATION_MS = 1000 := rfl
  refine ⟨?_, ?_, chunk_loop_sizes exportSize rem durationMs maxChunkMs⟩
  · intro s fuel c e sz h
    obtain ⟨-, -, hsz, hle⟩ := chunk_retry_accepted exportSize durationMs s fuel c e sz h
    exact ⟨hsz, hle⟩
  · intro s fuel hs hbig
    refine ⟨?_, rfl⟩
    simp only [chunk_retry]
    rw [if_neg (by omega), if_neg (by omega), if_neg (by omega), if_pos (by omega)]

/-- Witness for C2: a concrete two-chunk run in which the first accepted
span's export size meets the ceiling. -/
theorem chunk_size_compliance_witness :
    chunk_loop (fun s e => (e - s) * 10000) (fun _ _ => ⟨[], ""⟩) 3000 2000 3000 0
      = .ok ⟨[(0, 2000), (2000, 3000)], [], []⟩ ∧
    (0 + 2000 - 0) * 10000 ≤ MAX_AUDIO_BYTES := by
  have h : chunk_loop (fun s e => (e - s) * 10000) (fun _ _ => ⟨[], ""⟩) 3000 2000 3000 0
      = .ok ⟨[(0, 2000), (2000, 3000)], [], []⟩ := by decide
  refine ⟨h, ?_⟩
  have := (chunk_size_compliance (fun s e => (e - s) * 10000) (fun _ _ => ⟨[], ""⟩)
    3000 2000).2.2 3000 0 _ h (0, 2000) (by decide)
  simpa using this

/-- Claim C3: the spans of a successful chunked run, in order, start at 0,
are consecutive (each starts exactly where the previous ended, the cursor
advancing to the accepted slice's end), and tile `[0, durationMs)` exactly
— pairwise disjoint, no gaps, no overlaps. -/
theorem chunk_spans_coverage (exportSize : ℕ → ℕ → ℕ)
    (rem : ℕ → ℕ → TranscriptionResult) (durationMs maxChunkMs : ℕ) (run : ChunkedRun)
    (h : chunk_loop exportSize rem durationMs maxChunkMs durationMs 0 = .ok run) :
    spans_cover 0 run.spans durationMs ∧
    run.spans.Pairwise (fun p q => p.2 ≤ q.1) ∧
    (∀ t, t < durationMs ↔ ∃ p ∈ run.spans, p.1 ≤ t ∧ t < p.2) := by
  have hc := chunk_loop_cover exportSize rem durationMs maxChunkMs durationMs 0 run
    (Nat.zero_le _) (by omega) h
  refine ⟨hc, spans_cover_pairwise hc, fun t => ?_⟩
  have hmem := spans_cover_mem_iff hc t
  constructor
  · intro ht
    exact hmem.mp ⟨Nat.zero_le _, ht⟩
  · intro hex
    exact ((hmem.mpr hex)).2

/-- Witness for C3: the coverage statement instantiated on a concrete
two-chunk run. -/
theorem chunk_spans_coverage_witness :
    spans_cover 0 [(0, 2000), (2000, 3000)] 3000 ∧
    ([(0, 2000), (2000, 3000)] : List (ℕ × ℕ)).Pairwise (fun p q => p.2 ≤ q.1) ∧
    (∀ t, t < 3000 ↔ ∃ p ∈ [(0, 2000), (2000, 3000)], p.1 ≤ t ∧ t < p.2) :=
  chunk_spans_coverage (fun s e => (e - s) * 10000) (fun _ _ => ⟨[], ""⟩)
    3000 2000 ⟨[(0, 2000), (2000, 3000)], [], []⟩ (by decide)

/-- Claim C4: concatenating the chunks yielded by the streaming renderer
reproduces the non-streaming output byte for byte; moreover the yielded
sequence is either empty or consists of a first block carrying no
separator, followed by blocks each carrying their `"\n\n"` separator inside
the same chunk, followed by exactly one trailing `"\n"` chunk. -/
theorem streaming_concat_whole (segments : List RawSegment) :
    String.join (iter_srt_blocks segments) = segments_to_srt segments ∧
    (iter_srt_blocks segments = [] ∨
      ∃ b0 bs, iter_srt_blocks segments = b0 :: (bs ++ ["\n"]) ∧
        ∀ b ∈ bs, "\n\n".data <+: b.data) := by
  constructor
  · rw [segments_to_srt]
    split
    case isTrue h => exact h
    case isFalse h => rfl
  · rw [iter_srt_blocks]
    exact iter_aux_first segments 1

/-- Counterexample to claim C5: the pipeline can yield a dict with
`end < start`.  A remote segment `{start: 5, end: 3, text: "x"}` passes
through `_translate_and_normalize` and `_emit_segments` untouched (the
0.5 s repair lives only in the renderer), so the single-shot pipeline
yields `{start: 5, end: 3}`, violating `end > start`. -/
theorem segment_end_le_start_cex :
    transcribe_with_chunking 100 60000 (fun _ _ => 0)
      (fun _ _ => ⟨[⟨some 5, some 3, "x"⟩], "x"⟩) = .ok [⟨5, 3, "x"⟩] ∧
    ¬ ((5:ℚ) < 3) :=
  ⟨by decide, by decide⟩

/-- Claim C5 as amended: the `end > start` invariant (with the 0.5 s floor
for degenerate or absent timings) is enforced by the renderer, not on the
pipeline's yielded dicts: `iter_srt_blocks` repairs every segment's times
before formatting, so the repaired end always exceeds the repaired start;
and the fallback synthesizer also always produces `end > start`. -/
theorem render_repair_end_gt_start :
    (∀ seg : RawSegment, (render_times seg).1 < (render_times seg).2) ∧
    (∀ t : String, ∀ s ∈ build_single_segment t, s.start < s.stop) := by
  constructor
  · intro seg
    simp only [render_times]
    split
    case isTrue h =>
      exact lt_add_of_pos_right _ (by norm_num [MIN_SEGMENT_DURATION])
    case isFalse h =>
      exact lt_of_not_le h
  · intro t s hs
    rw [build_single_segment] at hs
    split at hs
    case isTrue => cases hs
    case isFalse h =>
      rw [List.mem_singleton] at hs
      subst hs
      exact lt_of_lt_of_le (by norm_num [MIN_SEGMENT_DURATION]) (le_max_left _ _)

/-- Witness for the amended C5: the fallback segment for a concrete text
has positive duration. -/
theorem render_repair_end_gt_start_witness :
    (⟨0, 4/5, "hello world"⟩ : Seg) ∈ build_single_segment " hello world " ∧
    (0:ℚ) < 4/5 :=
  ⟨by decide, render_repair_end_gt_start.2 " hello world " ⟨0, 4/5, "hello world"⟩ (by decide)⟩

/-- Counterexample to claim C6: the SRT index comes from `enumerate` over
the *input* sequence, counting segments skipped for empty text, so the
first *yielded* block after an empty-text segment carries index 2, not
index 1 as the claim's positional rule requires. -/
theorem srt_index_input_position_cex :
    iter_srt_blocks [⟨some 0, some 1, ""⟩, ⟨some 0, some 1, "hi"⟩]
      = ["2\n00:00:00,000 --> 00:00:01,000\nhi", "\n"] ∧
    ("2\n00:00:00,000 --> 00:00:01,000\nhi" : String)
      ≠ "1\n00:00:00,000 --> 00:00:01,000\nhi" :=
  ⟨by decide, by decide⟩

/-- Claim C6 as amended: the index is the 1-based *input* position (it
advances on skipped empty-text segments too); when no segment's trimmed
text is empty — as for every pipeline-produced segment — yielded position
and input position coincide, so the Nth yielded block carries index N: the
first block is the entry with index 1 and each following block is the
separator plus the entry with the next index.  Rendering is a pure function
of the ordered `(start, end, text)` list, so equal inputs give identical
SRT text. -/
theorem srt_positional_blocks (segments : List RawSegment)
    (h : ∀ seg ∈ segments, pystrip seg.rtext ≠ "") :
    (segments = [] → iter_srt_blocks segments = []) ∧
    (∀ seg rest, segments = seg :: rest →
      iter_srt_blocks segments = (srt_entry 1 seg :: sep_blocks 2 rest) ++ ["\n"]) := by
  constructor
  · intro hnil
    subst hnil
    rfl
  · intro seg rest hcons
    subst hcons
    rw [iter_srt_blocks, iter_srt_blocks_aux]
    rw [if_neg (h seg (List.mem_cons_self _ _))]
    rw [iter_aux_sep_blocks rest 2 (fun s hs => h s (List.mem_cons_of_mem _ hs))]
    rw [empty_append_str]
    exact (List.cons_append _ _ _).symm

/-- Witness for the amended C6 on a concrete two-segment list. -/
theorem srt_positional_blocks_witness :
    iter_srt_blocks [⟨some 0, some 1, "a"⟩, ⟨some 1, some 2, "b"⟩]
      = (srt_entry 1 ⟨some 0, some 1, "a"⟩ :: sep_blocks 2 [⟨some 1, some 2, "b"⟩])
        ++ ["\n"] :=
  (srt_positional_blocks [⟨some 0, some 1, "a"⟩, ⟨some 1, some 2, "b"⟩]
    (by decide)).2 _ _ rfl

/-- Counterexample to claim C7: a chunked run in which every chunk returns
no segments and a whitespace-only transcript emits zero segments, yet the
pipeline yields *no* fallback segment (not exactly one): the join of the
stripped per-chunk texts is empty, and `build_single_segment("")` is empty. -/
theorem fallback_empty_join_cex :
    transcribe_with_chunking 30000000 3000 (fun s e => (e - s) * 10000)
      (fun _ _ => ⟨[], "   "⟩) = .ok [] ∧
    ∀ s : Seg, transcribe_with_chunking 30000000 3000 (fun s2 e => (e - s2) * 10000)
      (fun _ _ => ⟨[], "   "⟩) ≠ .ok [s] := by
  have h0 : transcribe_with_chunking 30000000 3000 (fun s e => (e - s) * 10000)
      (fun _ _ => ⟨[], "   "⟩) = .ok [] := by decide
  refine ⟨h0, fun s h => ?_⟩
  rw [h0] at h
  injection h with h
  exact List.noConfusion h

/-- Claim C7 as amended: in chunked mode, if at least one segment was
emitted no whole-file fallback is ever yielded; and if zero segments were
emitted across all chunks, then every collected per-chunk transcript text
is necessarily blank after stripping (a chunk with usable text would have
emitted its own per-chunk fallback inside `_translate_and_normalize`), so
the space-joined fallback text is empty and the pipeline yields no
fallback segment at all — the whole-file fallback synthesis at lines
588-594 can never produce a segment. -/
theorem fallback_synthesis (file_size durationMs : ℕ) (exportSize : ℕ → ℕ → ℕ)
    (rem : ℕ → ℕ → TranscriptionResult) (run : ChunkedRun)
    (hsize : MAX_AUDIO_BYTES < file_size) (hdur : durationMs ≠ 0)
    (hrun : chunk_loop exportSize rem durationMs (max_chunk_ms file_size durationMs)
      durationMs 0 = .ok run) :
    (run.segs ≠ [] →
      transcribe_with_chunking file_size durationMs exportSize rem = .ok run.segs) ∧
    (run.segs = [] →
      (∀ t ∈ run.texts, pystrip t = "") ∧
      fallback_join run.texts = "" ∧
      transcribe_with_chunking file_size durationMs exportSize rem = .ok []) := by
  have hns : ¬ file_size ≤ MAX_AUDIO_BYTES := Nat.not_le.mpr hsize
  constructor
  · intro hne
    unfold transcribe_with_chunking
    rw [if_neg hns, if_neg hdur, hrun]
    rcases hsegs : run.segs with _ | ⟨a, l⟩
    · exact absurd hsegs hne
    · simp only [hsegs, List.isEmpty_cons, Bool.false_eq_true, if_false]
  · intro hempty
    have hblank := chunk_loop_blank exportSize rem durationMs
      (max_chunk_ms file_size durationMs) durationMs 0 run hrun hempty
    have hfilter : run.texts.filter (fun t => t != "" && pystrip t != "") = [] := by
      rw [List.filter_eq_nil_iff]
      intro t ht
      simp [hblank t ht]
    have hjoin : fallback_join run.texts = "" := by
      rw [fallback_join, hfilter]
      rfl
    refine ⟨hblank, hjoin, ?_⟩
    unfold transcribe_with_chunking
    rw [if_neg hns, if_neg hdur, hrun]
    simp only [hempty, List.isEmpty_nil, if_true]
    rw [hjoin]
    rfl

/-- Witness for the amended C7: a chunked run that emitted segments passes
through unchanged, with no fallback appended. -/
theorem fallback_synthesis_witness :
    MAX_AUDIO_BYTES < 30000000 ∧
    ([⟨0, 1/2, "hello"⟩, ⟨2621/500, 2621/500 + 1/2, "world"⟩] : List Seg) ≠ [] ∧
    transcribe_with_chunking 30000000 3000 (fun s e => (e - s) * 10000)
      (fun s _ => if s = 0 then ⟨[], "hello"⟩ else ⟨[], "world"⟩)
      = .ok [⟨0, 1/2, "hello"⟩, ⟨2621/500, 2621/500 + 1/2, "world"⟩] := by
  refine ⟨by decide, by decide, ?_⟩
  exact (fallback_synthesis 30000000 3000 (fun s e => (e - s) * 10000)
    (fun s _ => if s = 0 then ⟨[], "hello"⟩ else ⟨[], "world"⟩)
    ⟨[(0, 2621), (2621, 3000)],
     [⟨0, 1/2, "hello"⟩, ⟨2621/500, 2621/500 + 1/2, "world"⟩],
     ["hello", "world"]⟩
    (by decide) (by decide) (by decide)).1 (by decide)

/-- Claim C8 (code bug): temporary files are *not* deleted on every exit
path.  `generate_subtitles` registers the uploaded-bytes temp file in
`cleanup_paths` immediately, but no `try/finally` protects the
normalization and trim stages, and in streaming mode only `StopIteration`
is caught around the first `next()`: a normalization failure propagates
with the upload temp file still on disk, and a streaming-mode pipeline
failure at the first chunk propagates with upload, normalized and trimmed
files still on disk.  The non-streaming drain path, by contrast, does
clean up (its `finally` runs `_cleanup_paths`). -/
theorem cleanup_leak_on_early_failure :
    generate_subtitles_model false false false false false (.ok [])
      = ⟨.error .normalizeFailed, ["upload.tmp"]⟩ ∧
    (generate_subtitles_model false false false false false (.ok [])).leftover ≠ [] ∧
    generate_subtitles_model true true true true true (.error .unsplittable)
      = ⟨.error (.pipeline .unsplittable),
         ["upload.tmp", "normalized.mp3", "trimmed.mp3"]⟩ ∧
    (generate_subtitles_model true false false false false
      (.error .unsplittable)).leftover = [] :=
  ⟨by decide, by decide, by decide, by decide⟩

/-- Counterexample to claim C9: `_format_timestamp` does not wrap hours at
24 — the `divmod` chain just renders the full hour count (`f"{hours:02}"`
only pads), so 90000 s renders as `"25:00:00,000"`, not `"01:00:00,000"`. -/
theorem format_timestamp_no_wrap_cex :
    format_timestamp 90000 = "25:00:00,000" ∧
    format_timestamp 90000 ≠ "01:00:00,000" :=
  ⟨by decide, by decide⟩

/-- Claim C9 as amended: `formatTimestamp` clamps negative input to
`"00:00:00,000"`, rounds to the nearest millisecond (ties to even), and
renders minutes, seconds and milliseconds as two/two/three zero-padded
digits below 60, 60 and 1000; hours are *not* wrapped at 24 — large values
simply produce large zero-padded hour counts (90000 s gives 25 hours). -/
theorem format_timestamp_spec :
    format_timestamp 0 = "00:00:00,000" ∧
    format_timestamp 3661.2005 = "01:01:01,200" ∧
    format_timestamp 90000 = "25:00:00,000" ∧
    (∀ q : ℚ, q < 0 → format_timestamp q = "00:00:00,000") ∧
    (∀ q : ℚ, ∃ hh mm ss ms : ℕ, mm < 60 ∧ ss < 60 ∧ ms < 1000 ∧
      format_timestamp q
        = zpad 2 hh ++ ":" ++ zpad 2 mm ++ ":" ++ zpad 2 ss ++ "," ++ zpad 3 ms) := by
  refine ⟨by decide, by decide, by decide, ?_, ?_⟩
  · intro q hq
    unfold format_timestamp
    rw [max_eq_left hq.le]
    decide
  · intro q
    refine ⟨(pyRound (max 0 q * 1000)).toNat / 3600000,
      (pyRound (max 0 q * 1000)).toNat % 3600000 / 60000,
      (pyRound (max 0 q * 1000)).toNat % 3600000 % 60000 / 1000,
      (pyRound (max 0 q * 1000)).toNat % 3600000 % 60000 % 1000,
      by omega, by omega, by omega, rfl⟩

/-- Witness for the amended C9: a concrete negative input clamps to zero. -/
theorem format_timestamp_spec_witness :
    format_timestamp (-5) = "00:00:00,000" :=
  format_timestamp_spec.2.2.2.1 (-5) (by norm_num)

/-- Claim C10: `_trim_audio_to_duration` raises the HTTP 400 error for a
nonpositive `limit_ms`; returns the source path itself (creating no new
file, so trimmed may alias normalized) when the decoded duration is at
most the limit; and exports a new temp file with the first `limit_ms`
milliseconds only when the audio is strictly longer than the limit. -/
theorem trim_audio_spec (durationMs : ℕ) (limit_ms : ℤ) :
    (limit_ms ≤ 0 → trim_audio_to_duration durationMs limit_ms = .error .badLimit ∧
       http_status .badLimit = 400) ∧
    (0 < limit_ms → (durationMs : ℤ) ≤ limit_ms →
       trim_audio_to_duration durationMs limit_ms = .ok .samePath) ∧
    (0 < limit_ms → limit_ms < (durationMs : ℤ) →
       trim_audio_to_duration durationMs limit_ms = .ok (.newFile limit_ms.toNat)) := by
  refine ⟨fun h => ⟨?_, rfl⟩, fun h1 h2 => ?_, fun h1 h2 => ?_⟩
  · unfold trim_audio_to_duration
    rw [if_pos h]
  · unfold trim_audio_to_duration
    rw [if_neg (by omega), if_pos h2]
  · unfold trim_audio_to_duration
    rw [if_neg (by omega), if_neg (by omega)]

/-- Witness for C10: a 5 s file under a 10 s limit is returned unchanged. -/
theorem trim_audio_spec_witness :
    (0:ℤ) < 10000 ∧ ((5000:ℕ) : ℤ) ≤ 10000 ∧
    trim_audio_to_duration 5000 10000 = .ok .samePath :=
  ⟨by decide, by decide, (trim_audio_spec 5000 10000).2.1 (by decide) (by decide)⟩
